import Mathlib

/-!
Verification of the skill-manager install/uninstall core
(`skills/tooling/skill-manager/scripts/{install.py, uninstall.py}`).

Python strings are modelled as `List Char` (`Str`) where character-level
operations (splitting on `/`, joining, stripping) matter, and as Lean
`String` where only whole-string comparison matters.  Python's fallible
effects (subprocess runs, HTTP requests, the filesystem) are modelled by
explicit environment records, and functions that may raise return
`Except PyErr _`.
-/

namespace SkillManager

/-- Python strings at character granularity. -/
abbrev Str := List Char

/-- Model of Python `s.split(sep)` for a one-character separator:
`"".split("/") = [""]`, `"a/b".split("/") = ["a","b"]`,
`"/".split("/") = ["", ""]`. -/
def pySplit (sep : Char) : Str → List Str
  | [] => [[]]
  | c :: cs =>
    match pySplit sep cs with
    | [] => [[]]
    | seg :: segs => if c = sep then [] :: seg :: segs else (c :: seg) :: segs

/-- Model of Python `sep.join(segs)` for a one-character separator. -/
def pyJoin (sep : Char) : List Str → Str
  | [] => []
  | [t] => t
  | t :: ts => t ++ sep :: pyJoin sep ts

/-- Model of Python `s.rstrip(c)` for a one-character argument:
drop every trailing occurrence of `c`. -/
def pyRstrip (c : Char) (s : Str) : Str :=
  (s.reverse.dropWhile (· = c)).reverse

/-- Parsed skill source (`Source` dataclass in `install.py`). -/
structure Source where
  owner : Str
  repo : Str
  ref : Str
  path : Str
  skill_name : Str
deriving Repr, DecidableEq

/-- The default ref `"main"`. -/
def mainRef : Str := "main".data

/-- `parse_shorthand` from `install.py`: split the input on `/`; fewer than
two segments is an error; otherwise `path` joins the segments after the
repo and `skill_name` is the final segment of the input (the repo when
there is no subpath). -/
def parse_shorthand (shorthand : Str) (default_ref : Str := mainRef) :
    Except Str Source :=
  match pySplit '/' shorthand with
  | owner :: repo :: rest =>
    let path := pyJoin '/' rest
    let skill_name := rest.getLastD repo
    .ok { owner := owner, repo := repo, ref := default_ref,
          path := path, skill_name := skill_name }
  | _ => .error "Invalid shorthand. Use: owner/repo[/path/to/skill]".data

/-- Body of `parse_github_url` from `install.py`, after `urllib.parse.urlparse`
has produced the URL's host (`netloc`) and path components.  Empty path
segments are filtered out; a `tree/<ref>/...` or `blob/<ref>/...` prefix
fixes the ref; `skill_name` is the last segment of the rstripped subpath,
or the repo when the subpath is empty. -/
def parse_github_url (netloc : Str) (urlpath : Str)
    (default_ref : Str := mainRef) : Except Str Source :=
  if netloc ≠ "github.com".data ∧ netloc ≠ "www.github.com".data then
    .error "Only GitHub URLs are supported.".data
  else
    match (pySplit '/' urlpath).filter (· ≠ []) with
    | owner :: repo :: rest =>
      let refSub : Except Str (Str × Str) :=
        match rest with
        | [] => .ok (default_ref, [])
        | seg :: more =>
          if seg = "tree".data ∨ seg = "blob".data then
            match more with
            | [] => .error "GitHub URL missing ref or path.".data
            | r :: remainder => .ok (r, pyJoin '/' remainder)
          else
            .ok (default_ref, pyJoin '/' (seg :: more))
      match refSub with
      | .error e => .error e
      | .ok (ref, subpath) =>
        let skill_name :=
          if subpath ≠ [] then
            (pySplit '/' (pyRstrip '/' subpath)).getLastD []
          else repo
        .ok { owner := owner, repo := repo, ref := ref,
              path := subpath, skill_name := skill_name }
    | _ => .error "Invalid GitHub URL.".data

instance {ε α : Type} [DecidableEq ε] [DecidableEq α] : DecidableEq (Except ε α) :=
  fun x y =>
    match x, y with
    | .ok a, .ok b => if h : a = b then .isTrue (by rw [h]) else .isFalse (by simp [h])
    | .error a, .error b => if h : a = b then .isTrue (by rw [h]) else .isFalse (by simp [h])
    | .ok _, .error _ => .isFalse (by simp)
    | .error _, .ok _ => .isFalse (by simp)

/-! ### Python exceptions and subprocess outcomes -/

/-- The Python exceptions that can escape the modelled code. -/
inductive PyErr where
  | calledProcessError
  | timeoutExpired
  | fileNotFoundError
  | installError (code : Nat)
  | urlError
  | badZipFile
deriving Repr, DecidableEq

/-- Result of one `subprocess.run` call as seen by the caller. -/
inductive SubprocOutcome where
  | exited (code : Nat)
  | timedOut
  | notFound
deriving Repr, DecidableEq

/-! ### Acquisition strategies -/

/-- The `owner/repo[/path]` skill reference passed to a builtin install
command (`install_builtin` in `install.py`). -/
def skill_ref (source : Source) : Str :=
  source.owner ++ '/' :: source.repo ++
    (if source.path ≠ [] then '/' :: source.path else [])

/-- `install_builtin` from `install.py`: run the agent's builtin command on
`skill_ref source` with a 60s timeout; success iff exit code 0;
`TimeoutExpired` and `FileNotFoundError` are caught and yield `false`.
`run` gives the subprocess outcome for the command's final argument. -/
def install_builtin (source : Source) (run : Str → SubprocOutcome) :
    Except PyErr Bool :=
  match run (skill_ref source) with
  | .exited code => .ok (code == 0)
  | .timedOut => .ok false
  | .notFound => .ok false

/-- Environment for `install_git_sparse`: whether `git` is on `PATH`, the
outcome of the clone subprocess (run with `check=True` and a 60s timeout),
the exit code of the `sparse-checkout set` subprocess (run with
`check=True` and no timeout), and whether the requested subtree exists in
the clone. -/
structure GitEnv where
  git_on_path : Bool
  clone_result : SubprocOutcome
  sparse_exit : Nat
  subpath_exists : Bool
deriving Repr, DecidableEq

/-- `install_git_sparse` from `install.py`.  The clone is wrapped in
`try/except CalledProcessError` only, so a clone timeout propagates as
`TimeoutExpired`; the narrowing `sparse-checkout set` call (made only when
`source.path` is non-empty) uses `check=True` with no `try`, so a non-zero
exit there propagates as `CalledProcessError`; a missing subtree returns
`false`. -/
def install_git_sparse (source : Source) (env : GitEnv) : Except PyErr Bool :=
  if env.git_on_path = false then .ok false
  else
    match env.clone_result with
    | .notFound => .error .fileNotFoundError
    | .timedOut => .error .timeoutExpired
    | .exited code =>
      if code ≠ 0 then .ok false
      else if source.path ≠ [] ∧ env.sparse_exit ≠ 0 then
        .error .calledProcessError
      else if env.subpath_exists = false then .ok false
      else .ok true

/-- Environment for `install_download`: whether the network layer produced a
response at all (otherwise `urlopen` raises `URLError`), the HTTP error
status if the response was an `HTTPError` (`none` means a 200 payload),
whether the zip payload extracts cleanly, whether a `repo-*` top-level
directory is found after extraction, and whether the requested subtree
exists inside it. -/
structure DownloadEnv where
  net_ok : Bool
  http_status : Option Nat
  zip_ok : Bool
  extracted_found : Bool
  subpath_exists : Bool
deriving Repr, DecidableEq

/-- `github_request` from `install.py`: `urllib.error.HTTPError` is caught
and re-raised as `InstallError` carrying the status code; any other
network failure (`URLError`, socket timeout) propagates. -/
def github_request (env : DownloadEnv) : Except PyErr Unit :=
  if env.net_ok = false then .error .urlError
  else
    match env.http_status with
    | some code => .error (.installError code)
    | none => .ok ()

/-- Result of one `install_download` call: the returned boolean, and whether
the destination directory was created or written. -/
structure DownloadResult where
  success : Bool
  dest_touched : Bool
deriving Repr, DecidableEq

/-- `install_download` from `install.py`: only `InstallError` from
`github_request` is caught (clean `false`, destination untouched); a bad
zip raises `BadZipFile`; a missing `repo-*` directory or missing subtree
is a clean `false`; otherwise the destination is created and written. -/
def install_download (source : Source) (env : DownloadEnv) :
    Except PyErr DownloadResult :=
  match github_request env with
  | .error (.installError _code) => .ok ⟨false, false⟩
  | .error e => .error e
  | .ok _ =>
    if env.zip_ok = false then .error .badZipFile
    else if env.extracted_found = false then .ok ⟨false, false⟩
    else
      let src_exists :=
        if source.path = [] then true else env.subpath_exists
      if src_exists = false then .ok ⟨false, false⟩
      else .ok ⟨true, true⟩

/-! ### Installer orchestration (`install_skill` in `install.py`) -/

/-- Boolean results of the three strategies for one target, plus whether the
agent advertises a builtin install command. -/
structure StratEnv where
  builtin_install : Option String
  builtin_ok : Bool
  git_ok : Bool
  download_ok : Bool
deriving Repr, DecidableEq

/-- The GitHub branch of `install_skill`'s per-target loop (`install.py`
lines 280–297): try builtin, then git, then download, gated by `method`,
stopping at the first success.  Returns the strategies attempted, in
order, and the recorded `method_used` (`none` when all attempts failed). -/
def try_github_methods (method : String) (env : StratEnv) :
    List String × Option String :=
  let tryB := (method == "auto" || method == "builtin") &&
    env.builtin_install.isSome
  let st1 : List String × Bool × Option String :=
    if tryB then
      (["builtin"], env.builtin_ok,
        if env.builtin_ok then some "builtin" else none)
    else ([], false, none)
  let tryG := !st1.2.1 && (method == "auto" || method == "git")
  let st2 : List String × Bool × Option String :=
    if tryG then
      (st1.1 ++ ["git"], env.git_ok, if env.git_ok then some "git" else st1.2.2)
    else st1
  let tryD := !st2.2.1 && (method == "auto" || method == "download")
  let st3 : List String × Bool × Option String :=
    if tryD then
      (st2.1 ++ ["download"], env.download_ok,
        if env.download_ok then some "download" else st2.2.2)
    else st2
  (st3.1, st3.2.2)

/-- Per-target outcome recorded by `install_skill`. -/
inductive InstallOutcome where
  | installed (method : String)
  | skipped (reason : String)
  | failed
deriving Repr, DecidableEq

/-- Environment for one target of `install_skill`, over an abstract
directory-content type `γ`: whether the source string named an existing
local path and the content a copy of it produces, the strategy results,
the content a successful git or download acquisition writes, the effect
of a successful builtin delegation on the destination (the native tool
owns placement; the script itself does not touch it), and how `copytree`
with `dirs_exist_ok=True` merges new content over old. -/
structure TargetEnv (γ : Type) where
  local_exists : Bool
  local_content : γ
  strat : StratEnv
  git_content : γ
  download_content : γ
  builtin_effect : Option γ → Option γ
  merge : γ → γ → γ

/-- One iteration of `install_skill`'s per-target loop (`install.py` lines
255–309).  `dest` is the directory content at the destination (`none` when
the destination does not exist).  Returns the recorded outcome, the
destination content afterwards, and the list of acquisition strategies
attempted. -/
def install_target {γ : Type} (symlink : Bool) (method : String)
    (env : TargetEnv γ) (dest : Option γ) :
    InstallOutcome × Option γ × List String :=
  if dest.isSome && !symlink then
    (.skipped "Already exists", dest, [])
  else if env.local_exists then
    if symlink then (.installed "symlink", some env.local_content, [])
    else
      let newContent :=
        match dest with
        | none => env.local_content
        | some c => env.merge c env.local_content
      (.installed "copy", some newContent, [])
  else
    match try_github_methods method env.strat with
    | (att, some m) =>
      let dest' :=
        if m = "builtin" then env.builtin_effect dest
        else if m = "git" then
          some (match dest with
            | none => env.git_content
            | some c => env.merge c env.git_content)
        else
          some (match dest with
            | none => env.download_content
            | some c => env.merge c env.download_content)
      (.installed m, dest', att)
    | (att, none) => (.failed, dest, att)

/-- The `results` dict built by `install_skill`: per-agent entries under
`installed` (with method), `skipped` (with reason) and `failed`. -/
structure InstallResults where
  installed : List (String × String)
  skipped : List (String × String)
  failed : List String
deriving Repr, DecidableEq

/-- Aggregate per-target outcomes into the `results` dict, preserving
target order within each category. -/
def install_collect : List (String × InstallOutcome) → InstallResults
  | [] => ⟨[], [], []⟩
  | (name, o) :: rest =>
    let r := install_collect rest
    match o with
    | .installed m => { r with installed := (name, m) :: r.installed }
    | .skipped reason => { r with skipped := (name, reason) :: r.skipped }
    | .failed => { r with failed := name :: r.failed }

/-- Exit status of `install.py`'s `main`:
`1 if results["failed"] and not results["installed"] else 0`. -/
def install_exit_code (r : InstallResults) : Nat :=
  if r.failed ≠ [] ∧ r.installed = [] then 1 else 0

/-- Does this outcome land in the `failed` list? -/
def InstallOutcome.isFailed : InstallOutcome → Bool
  | .failed => true
  | _ => false

/-- Does this outcome land in the `installed` list? -/
def InstallOutcome.isInstalled : InstallOutcome → Bool
  | .installed _ => true
  | _ => false

/-- Target filtering in `install_skill` (`install.py` lines 243–252): no
detected agents is a fatal `InstallError`; a selector other than `all`
that matches nothing is a fatal `InstallError`. -/
def select_install_targets (agents : Option (List String))
    (detected : List String) : Except String (List String) :=
  if detected.isEmpty then
    .error "No AI agents detected on this system."
  else
    match agents with
    | some sel =>
      if sel ≠ [] ∧ sel ≠ ["all"] then
        let target_agents := detected.filter (fun k => sel.contains k)
        if target_agents.isEmpty then
          .error "None of the specified agents found"
        else .ok target_agents
      else .ok detected
    | none => .ok detected

/-! ### Uninstaller (`uninstall.py`) -/

/-- The slice of an agent record that `uninstall_skill` consults. -/
structure UAgent where
  name : String
  builtin_install : Option String
deriving Repr, DecidableEq

/-- Model of Python `s.replace(old, new)` for non-empty `old`: replace
non-overlapping occurrences left to right.  The fuel argument (the length
of the remaining input at the first call) makes the recursion structural. -/
def pyReplaceAux (old new : Str) : Nat → Str → Str
  | 0, s => s
  | Nat.succ fuel, s =>
    match s with
    | [] => []
    | c :: cs =>
      if old.isPrefixOf s && !old.isEmpty then
        new ++ pyReplaceAux old new fuel (s.drop old.length)
      else c :: pyReplaceAux old new fuel cs

/-- Model of Python `s.replace(old, new)`. -/
def pyReplace (old new s : Str) : Str :=
  pyReplaceAux old new s.length s

/-- Derivation of the native remove command in `uninstall_builtin`:
`agent["builtin_install"].replace("install", "remove")`. -/
def remove_cmd (builtin_install : String) : String :=
  String.mk (pyReplace "install".data "remove".data builtin_install.data)

/-- `uninstall_builtin` from `uninstall.py`: no builtin command means
`false`; otherwise run the derived remove command followed by the skill
name with a 30s timeout; success iff exit code 0, with `TimeoutExpired`
and `FileNotFoundError` caught and yielding `false`.  `run` gives the
subprocess outcome for a full command string. -/
def uninstall_builtin (skill_name : String) (agent : UAgent)
    (run : String → SubprocOutcome) : Bool :=
  match agent.builtin_install with
  | none => false
  | some cmd =>
    match run (remove_cmd cmd ++ " " ++ skill_name) with
    | .exited code => code == 0
    | .timedOut => false
    | .notFound => false

/-- Per-target outcome recorded by `uninstall_skill`. -/
inductive UninstallOutcome where
  | removed (method : String)
  | notFound
deriving Repr, DecidableEq

/-- How the fallback file deletion removed the path, if it ran. -/
inductive DeleteAction where
  | unlinked
  | removedTree
  | noDelete
deriving Repr, DecidableEq

/-- Filesystem and subprocess environment for one uninstall target. -/
structure UTargetEnv where
  run : String → SubprocOutcome
  path_exists : Bool
  is_symlink : Bool

/-- One iteration of `uninstall_skill`'s per-target loop (`uninstall.py`
lines 51–81): builtin removal is attempted first when the agent has a
builtin command; otherwise, an existing path is unlinked when it is a
symlink and recursively removed otherwise; otherwise the skill was not
found.  Returns the outcome, the deletion action taken, and whether the
path at `installRoot/skillName` still exists afterwards (builtin removal
is performed by the external tool, which does not act through this
script's filesystem model). -/
def uninstall_target (skill_name : String) (agent : UAgent)
    (env : UTargetEnv) : UninstallOutcome × DeleteAction × Bool :=
  if agent.builtin_install.isSome &&
      uninstall_builtin skill_name agent env.run then
    (.removed "builtin", .noDelete, env.path_exists)
  else if env.path_exists then
    if env.is_symlink then (.removed "file", .unlinked, false)
    else (.removed "file", .removedTree, false)
  else (.notFound, .noDelete, env.path_exists)

/-- The `results` dict built by `uninstall_skill`. -/
structure UninstallResults where
  removed : List (String × String)
  not_found : List String
deriving Repr, DecidableEq

/-- Aggregate per-target uninstall outcomes into the `results` dict. -/
def uninstall_collect : List (String × UninstallOutcome) → UninstallResults
  | [] => ⟨[], []⟩
  | (name, o) :: rest =>
    let r := uninstall_collect rest
    match o with
    | .removed m => { r with removed := (name, m) :: r.removed }
    | .notFound => { r with not_found := name :: r.not_found }

/-- Target filtering in `uninstall_skill` (`uninstall.py` lines 45–49): a
selector other than `all` keeps the detected agents whose name it lists;
there is no error path for an empty result. -/
def select_uninstall_targets (agents : Option (List String))
    (detected : List (UAgent × UTargetEnv)) : List (UAgent × UTargetEnv) :=
  match agents with
  | some sel =>
    if sel ≠ [] ∧ sel ≠ ["all"] then
      detected.filter (fun p => sel.contains p.1.name)
    else detected
  | none => detected

/-- `uninstall_skill` from `uninstall.py`: empty detection returns the empty
results immediately; otherwise the selected targets are processed
independently, in order. -/
def uninstall_skill (skill_name : String) (agents : Option (List String))
    (detected : List (UAgent × UTargetEnv)) : UninstallResults :=
  if detected.isEmpty then ⟨[], []⟩
  else
    uninstall_collect
      ((select_uninstall_targets agents detected).map
        (fun p => (p.1.name, (uninstall_target skill_name p.1 p.2).1)))

/-- Exit status of `uninstall.py`'s `main`:
`0 if results["removed"] else 1`. -/
def uninstall_exit_code (r : UninstallResults) : Nat :=
  if r.removed = [] then 1 else 0

/-! ### Theorems -/

lemma install_collect_failed_iff (os : List (String × InstallOutcome)) :
    (install_collect os).failed ≠ [] ↔ ∃ p ∈ os, p.2.isFailed = true := by
  induction os with
  | nil => simp [install_collect]
  | cons hd tl ih =>
    obtain ⟨name, o⟩ := hd
    cases o with
    | installed m => simpa [install_collect, InstallOutcome.isFailed] using ih
    | skipped r => simpa [install_collect, InstallOutcome.isFailed] using ih
    | failed => simp [install_collect, InstallOutcome.isFailed]

lemma install_collect_installed_iff (os : List (String × InstallOutcome)) :
    (install_collect os).installed = [] ↔
      ∀ p ∈ os, p.2.isInstalled = false := by
  induction os with
  | nil => simp [install_collect]
  | cons hd tl ih =>
    obtain ⟨name, o⟩ := hd
    cases o with
    | installed m => simp [install_collect, InstallOutcome.isInstalled]
    | skipped r => simpa [install_collect, InstallOutcome.isInstalled] using ih
    | failed => simpa [install_collect, InstallOutcome.isInstalled] using ih

lemma install_exit_code_eq_one_iff (r : InstallResults) :
    install_exit_code r = 1 ↔ (r.failed ≠ [] ∧ r.installed = []) := by
  unfold install_exit_code
  split <;> simp_all

lemma install_exit_code_eq_zero_iff (r : InstallResults) :
    install_exit_code r = 0 ↔ ¬(r.failed ≠ [] ∧ r.installed = []) := by
  unfold install_exit_code
  split <;> simp_all

/-- C4: the install process exits with status 1 exactly when the report has
at least one `Failed` outcome and no `Installed` outcome; in every other
case, including a mix of `Installed` and `Failed` outcomes, it exits with
status 0. -/
theorem install_exit_status (os : List (String × InstallOutcome)) :
    (install_exit_code (install_collect os) = 1 ↔
      (∃ p ∈ os, p.2.isFailed = true) ∧ ∀ p ∈ os, p.2.isInstalled = false) ∧
    (install_exit_code (install_collect os) = 0 ↔
      ¬((∃ p ∈ os, p.2.isFailed = true) ∧
        ∀ p ∈ os, p.2.isInstalled = false)) := by
  constructor
  · rw [install_exit_code_eq_one_iff, install_collect_failed_iff,
      install_collect_installed_iff]
  · rw [install_exit_code_eq_zero_iff, install_collect_failed_iff,
      install_collect_installed_iff]

/-- Witness for C4: one failed and one installed target exit with status 0. -/
theorem install_exit_status_witness :
    install_exit_code (install_collect
      [("claude", .failed), ("codex", .installed "download")]) = 0 :=
  (install_exit_status
      [("claude", .failed), ("codex", .installed "download")]).2.mpr
    (by decide)

/-- C2: in `auto` mode the strategies are driven in the fixed order builtin
(native delegation, when the agent has a builtin command), git sparse
checkout, archive download, stopping at the first success and recording
that strategy's name; when builtin is unavailable and git fails, download
is still attempted before the target fails; a single named mode attempts
only that strategy. -/
theorem install_strategy_order (env : StratEnv) :
    (env.builtin_install.isSome = true → env.builtin_ok = true →
      try_github_methods "auto" env = (["builtin"], some "builtin")) ∧
    ((env.builtin_install.isSome = false ∨ env.builtin_ok = false) →
      env.git_ok = true →
      try_github_methods "auto" env =
        ((if env.builtin_install.isSome then ["builtin"] else []) ++ ["git"],
          some "git")) ∧
    ((env.builtin_install.isSome = false ∨ env.builtin_ok = false) →
      env.git_ok = false →
      try_github_methods "auto" env =
        ((if env.builtin_install.isSome then ["builtin"] else []) ++
            ["git", "download"],
          if env.download_ok then some "download" else none)) ∧
    (∀ m, m = "builtin" ∨ m = "git" ∨ m = "download" →
      ∀ s ∈ (try_github_methods m env).1, s = m) := by
  obtain ⟨bi, bo, go, dl⟩ := env
  refine ⟨?_, ?_, ?_, ?_⟩
  · intro h1 h2
    cases bi with
    | none => simp at h1
    | some c => subst h2; rfl
  · intro h1 h2
    subst h2
    cases bi with
    | none => rfl
    | some c =>
      rcases h1 with h | h
      · simp at h
      · subst h; rfl
  · intro h1 h2
    subst h2
    cases bi with
    | none => rfl
    | some c =>
      rcases h1 with h | h
      · simp at h
      · subst h; rfl
  · intro m hm
    rcases hm with rfl | rfl | rfl <;>
      cases bi <;> cases bo <;> cases go <;> cases dl <;> simp [try_github_methods]

/-- Witness for C2: no builtin command and a failing git checkout still
attempt download, which succeeds. -/
theorem install_strategy_order_witness :
    try_github_methods "auto" ⟨none, false, false, true⟩ =
      (["git", "download"], some "download") := by
  have h := (install_strategy_order ⟨none, false, false, true⟩).2.2.1
    (Or.inl rfl) rfl
  simpa using h

/-- C7: when the archive fetch yields an HTTP error status (400 or greater),
the download strategy returns `false` cleanly and the destination is
neither created nor modified; and with `download` as the only attempted
strategy a failing download leaves the target failed. -/
theorem download_http_error_clean (source : Source) (env : DownloadEnv)
    (code : Nat) (hnet : env.net_ok = true) (hst : env.http_status = some code)
    (hcode : 400 ≤ code) :
    install_download source env = .ok ⟨false, false⟩ ∧
    ∀ senv : StratEnv, senv.download_ok = false →
      try_github_methods "download" senv = (["download"], none) := by
  constructor
  · unfold install_download github_request
    rw [hnet, hst]
    rfl
  · intro senv h
    obtain ⟨bi, bo, go, dl⟩ := senv
    simp only at h
    subst h
    rfl

/-- Witness for C7: a 404 on the archive endpoint is a clean failure that
leaves the destination untouched. -/
theorem download_http_error_clean_witness :
    install_download
      { owner := "acme".data, repo := "toolkit".data, ref := mainRef,
        path := "packs/search".data, skill_name := "search".data }
      { net_ok := true, http_status := some 404, zip_ok := true,
        extracted_found := true, subpath_exists := true } =
      .ok ⟨false, false⟩ :=
  (download_http_error_clean _ _ 404 rfl rfl (by decide)).1

/-- C9: when the source string names an existing local path, the per-target
install step never consults an acquisition strategy, proceeds by copy (or
symlink when requested) unless skipped as already existing, and its whole
result — outcome and filesystem state — is the same for every value of
the `method` parameter. -/
theorem local_install_ignores_method {γ : Type} (symlink : Bool)
    (m₁ m₂ : String) (env : TargetEnv γ) (dest : Option γ)
    (hloc : env.local_exists = true) :
    install_target symlink m₁ env dest = install_target symlink m₂ env dest ∧
    (install_target symlink m₁ env dest).2.2 = [] ∧
    ((dest.isSome && !symlink) = false →
      (install_target symlink m₁ env dest).1 =
        .installed (if symlink then "symlink" else "copy")) := by
  unfold install_target
  rw [hloc]
  cases h : (dest.isSome && !symlink) with
  | true => simp
  | false =>
    cases symlink <;> simp

/-- Witness for C9: an existing local directory installs by copy with no
acquisition strategy attempted, whatever the method flag says. -/
theorem local_install_ignores_method_witness :
    install_target (γ := Nat) false "git"
        { local_exists := true, local_content := 3,
          strat := ⟨some "claude skill install", true, true, true⟩,
          git_content := 1, download_content := 2,
          builtin_effect := fun d => d, merge := fun a _ => a } none =
      install_target false "download"
        { local_exists := true, local_content := 3,
          strat := ⟨some "claude skill install", true, true, true⟩,
          git_content := 1, download_content := 2,
          builtin_effect := fun d => d, merge := fun a _ => a } none :=
  (local_install_ignores_method false "git" "download" _ none rfl).1

/-- C10: uninstall never fails fatally on target selection — no detected
agents, or a non-`all` selector matching nothing, yields the empty report
(no `Removed`, no `NotFound`) and exit status 1 — whereas the install path
raises a fatal error in both situations. -/
theorem uninstall_selection_graceful :
    (∀ (skill : String) (agents : Option (List String)),
      uninstall_skill skill agents [] = ⟨[], []⟩ ∧
      uninstall_exit_code (uninstall_skill skill agents []) = 1) ∧
    (∀ (skill : String) (sel : List String)
        (detected : List (UAgent × UTargetEnv)),
      sel ≠ [] → sel ≠ ["all"] →
      (∀ p ∈ detected, sel.contains p.1.name = false) →
      uninstall_skill skill (some sel) detected = ⟨[], []⟩ ∧
      uninstall_exit_code (uninstall_skill skill (some sel) detected) = 1) ∧
    (∀ agents : Option (List String),
      select_install_targets agents [] =
        .error "No AI agents detected on this system.") ∧
    (∀ (sel : List String) (detected : List String),
      detected ≠ [] → sel ≠ [] → sel ≠ ["all"] →
      (∀ k ∈ detected, sel.contains k = false) →
      select_install_targets (some sel) detected =
        .error "None of the specified agents found") := by
  refine ⟨?_, ?_, ?_, ?_⟩
  · intro skill agents
    exact ⟨rfl, rfl⟩
  · intro skill sel detected h1 h2 h3
    have hfilter : select_uninstall_targets (some sel) detected = [] := by
      unfold select_uninstall_targets
      dsimp only
      rw [if_pos ⟨h1, h2⟩]
      exact List.filter_eq_nil_iff.mpr (fun p hp => by have := h3 p hp; simp_all)
    have : uninstall_skill skill (some sel) detected = ⟨[], []⟩ := by
      unfold uninstall_skill
      cases hd : detected.isEmpty with
      | true => rfl
      | false =>
        rw [if_neg (by simp [hd])]
        rw [hfilter]
        rfl
    exact ⟨this, by rw [this]; rfl⟩
  · intro agents
    rfl
  · intro sel detected h1 h2 h3 h4
    unfold select_install_targets
    rw [if_neg (by simp [h1])]
    dsimp only
    rw [if_pos ⟨h2, h3⟩]
    rw [List.filter_eq_nil_iff.mpr (fun k hk => by have := h4 k hk; simp_all)]
    rfl

/-- Witness for C10: a selector naming an undetected agent removes nothing
and exits 1, while install's selection raises for the empty detection. -/
theorem uninstall_selection_graceful_witness :
    uninstall_skill "demo" (some ["cursor"])
        [(⟨"claude", some "claude skill install"⟩,
          ⟨fun _ => .exited 0, true, false⟩)] = ⟨[], []⟩ ∧
    select_install_targets none [] =
      .error "No AI agents detected on this system." :=
  ⟨(uninstall_selection_graceful.2.1 "demo" ["cursor"]
      [(⟨"claude", some "claude skill install"⟩,
        ⟨fun _ => .exited 0, true, false⟩)]
      (by decide) (by decide)
      (by intro p hp; simp only [List.mem_singleton] at hp; subst hp; rfl)).1,
    uninstall_selection_graceful.2.2.1 none⟩

/-- C1 counterexample: with git on `PATH`, a successful clone, and a failing
`sparse-checkout set` narrowing (non-zero exit under `check=True` outside
any `try`), the sparse-checkout strategy raises `CalledProcessError`
instead of returning `false`. -/
theorem sparse_narrowing_raises :
    install_git_sparse
        { owner := "acme".data, repo := "toolkit".data, ref := mainRef,
          path := "packs".data, skill_name := "packs".data }
        { git_on_path := true, clone_result := .exited 0, sparse_exit := 1,
          subpath_exists := true } = .error .calledProcessError ∧
    (Except.error .calledProcessError : Except PyErr Bool) ≠ .ok false := by
  decide

/-- C1 as amended: native delegation never raises; sparse checkout returns
`false` for a missing git client, a clone with non-zero exit, or a missing
subtree, but raises `TimeoutExpired` when the clone times out and
`CalledProcessError` when the narrowing fails; archive download returns
`false` for an HTTP error (the `InstallError` re-raise is caught) but
raises `URLError` when the network layer fails. -/
theorem strategies_error_behavior :
    (∀ (source : Source) (run : Str → SubprocOutcome),
      ∃ b, install_builtin source run = .ok b) ∧
    (∀ (source : Source) (env : GitEnv),
      (env.git_on_path = false → install_git_sparse source env = .ok false) ∧
      (∀ c, env.clone_result = .exited c → c ≠ 0 →
        install_git_sparse source env = .ok false) ∧
      (env.clone_result = .exited 0 →
        (source.path = [] ∨ env.sparse_exit = 0) →
        env.subpath_exists = false →
        install_git_sparse source env = .ok false) ∧
      (env.git_on_path = true → env.clone_result = .timedOut →
        install_git_sparse source env = .error .timeoutExpired) ∧
      (env.git_on_path = true → env.clone_result = .exited 0 →
        source.path ≠ [] → env.sparse_exit ≠ 0 →
        install_git_sparse source env = .error .calledProcessError)) ∧
    (∀ (source : Source) (env : DownloadEnv),
      (env.net_ok = true → ∀ code, env.http_status = some code →
        install_download source env = .ok ⟨false, false⟩) ∧
      (env.net_ok = false →
        install_download source env = .error .urlError)) := by
  refine ⟨?_, ?_, ?_⟩
  · intro source run
    unfold install_builtin
    cases run (skill_ref source) with
    | exited code => exact ⟨code == 0, rfl⟩
    | timedOut => exact ⟨false, rfl⟩
    | notFound => exact ⟨false, rfl⟩
  · intro source env
    obtain ⟨gp, cr, se, sx⟩ := env
    refine ⟨?_, ?_, ?_, ?_, ?_⟩
    · intro h
      simp only at h
      subst h
      rfl
    · intro c hc hne
      simp only at hc
      subst hc
      unfold install_git_sparse
      cases gp with
      | false => rfl
      | true => simp [hne]
    · intro hc hor hsx
      simp only at hc hsx
      subst hc; subst hsx
      unfold install_git_sparse
      cases gp with
      | false => rfl
      | true =>
        have : ¬(source.path ≠ [] ∧ se ≠ 0) := by
          rcases hor with h | h <;> simp_all
        simp [this]
    · intro hg hc
      simp only at hg hc
      subst hg; subst hc
      rfl
    · intro hg hc hp hs
      simp only at hg hc hs
      subst hg; subst hc
      unfold install_git_sparse
      simp [hp, hs]
  · intro source env
    obtain ⟨net, st, z, e, s⟩ := env
    constructor
    · intro hnet code hst
      simp only at hnet hst
      subst hnet; subst hst
      rfl
    · intro hnet
      simp only at hnet
      subst hnet
      rfl

/-- Witness for C1 (amended): a clone exiting non-zero is a clean `false`
from the sparse-checkout strategy. -/
theorem strategies_error_behavior_witness :
    install_git_sparse
        { owner := "acme".data, repo := "toolkit".data, ref := mainRef,
          path := [], skill_name := "toolkit".data }
        { git_on_path := true, clone_result := .exited 128, sparse_exit := 0,
          subpath_exists := true } = .ok false :=
  (strategies_error_behavior.2.1
      { owner := "acme".data, repo := "toolkit".data, ref := mainRef,
        path := [], skill_name := "toolkit".data }
      { git_on_path := true, clone_result := .exited 128, sparse_exit := 0,
        subpath_exists := true }).2.1 128 rfl (by decide)

/-- C3 counterexample: the recorded skip reason is `"Already exists"`, not
`"already exists"`; and after a first install that succeeded through
builtin delegation with a native tool that did not create the destination
path, the second run installs again (attempting a strategy) instead of
skipping. -/
theorem install_twice_counterexample :
    (install_target (γ := Nat) false "auto"
        { local_exists := true, local_content := 7,
          strat := ⟨none, false, false, false⟩, git_content := 0,
          download_content := 0, builtin_effect := fun d => d,
          merge := fun a _ => a } (some 7)).1 = .skipped "Already exists" ∧
    ("Already exists" : String) ≠ "already exists" ∧
    (let env : TargetEnv Nat :=
      { local_exists := false, local_content := 0,
        strat := ⟨some "claude skill install", true, false, false⟩,
        git_content := 0, download_content := 0,
        builtin_effect := fun d => d, merge := fun a _ => a }
     let r1 := install_target false "auto" env none
     let r2 := install_target false "auto" env r1.2.1
     r1.1 = .installed "builtin" ∧ r2.1 = .installed "builtin" ∧
       r2.2.2 = ["builtin"]) := by
  refine ⟨rfl, by decide, rfl, rfl, rfl⟩

/-- C3 as amended: without overwrite (symlink) mode, a first run whose
outcome is `Installed` through a destination-materialising method (copy,
git, or download — anything but builtin delegation, whose placement is
owned by the external tool) leaves content at the destination, and a
second run of the same install records `Skipped` with reason
`"Already exists"` (capitalised as in the code), attempts no acquisition
strategy, and leaves the destination content exactly as the first run
left it. -/
theorem install_idempotent {γ : Type} (method m : String)
    (env : TargetEnv γ) (d₁ : Option γ) (att : List String)
    (h₁ : install_target false method env none = (.installed m, d₁, att))
    (hm : m ≠ "builtin") :
    (∃ c, d₁ = some c) ∧
    install_target false method env d₁ =
      (.skipped "Already exists", d₁, []) := by
  have hsome : ∃ c, d₁ = some c := by
    unfold install_target at h₁
    simp only [Option.isSome_none, Bool.false_and, if_false] at h₁
    cases hl : env.local_exists with
    | true =>
      rw [hl] at h₁
      simp only [if_true, Bool.not_false, if_false] at h₁
      exact ⟨env.local_content, by
        have := congrArg (fun t => t.2.1) h₁
        simp at this
        exact this.symm⟩
    | false =>
      rw [hl] at h₁
      simp only [Bool.false_eq_true, if_false] at h₁
      cases ht : try_github_methods method env.strat with
      | mk attl used =>
        rw [ht] at h₁
        cases used with
        | none => simp at h₁
        | some mu =>
          simp only [Prod.mk.injEq, InstallOutcome.installed.injEq] at h₁
          obtain ⟨hmu, hd, hatt⟩ := h₁
          subst hmu
          rw [if_neg hm] at hd
          by_cases hg : mu = "git"
          · rw [if_pos hg] at hd
            exact ⟨_, hd.symm⟩
          · rw [if_neg hg] at hd
            exact ⟨_, hd.symm⟩
  obtain ⟨c, hc⟩ := hsome
  subst hc
  exact ⟨⟨c, rfl⟩, rfl⟩

/-- Witness for C3 (amended): a local copy install followed by a rerun that
skips with the destination content preserved. -/
theorem install_idempotent_witness :
    install_target (γ := Nat) false "auto"
        { local_exists := true, local_content := 7,
          strat := ⟨none, false, false, false⟩, git_content := 0,
          download_content := 0, builtin_effect := fun d => d,
          merge := fun a _ => a } (some 7) =
      (.skipped "Already exists", some 7, []) :=
  (install_idempotent "auto" "copy"
      { local_exists := true, local_content := 7,
        strat := ⟨none, false, false, false⟩, git_content := 0,
        download_content := 0, builtin_effect := fun d => d,
        merge := fun a _ => a } (some 7) [] rfl (by decide)).2

/-- C8 counterexample: a successful native removal is recorded with
`methodUsed = "builtin"`, not `"native"`. -/
theorem uninstall_method_name_counterexample :
    (uninstall_target "demo" ⟨"claude", some "claude skill install"⟩
        ⟨fun _ => .exited 0, false, false⟩).1 = .removed "builtin" ∧
    ("builtin" : String) ≠ "native" := by
  exact ⟨rfl, by decide⟩

/-- C8 as amended: for each target, native removal (the install command with
its `install` verb rewritten to `remove`, then the skill name) is tried
first and a success is recorded as `Removed` with method `"builtin"` (the
code's name for native removal, not `"native"`); otherwise an existing
path is deleted — unlinked when a symlink, recursively removed otherwise —
and recorded as `Removed` with method `"file"`; otherwise `NotFound` is
recorded; and each target's outcome is computed from that target alone. -/
theorem uninstall_target_behavior :
    (∀ (skill : String) (agent : UAgent) (env : UTargetEnv),
      uninstall_builtin skill agent env.run = true →
      uninstall_target skill agent env =
        (.removed "builtin", .noDelete, env.path_exists)) ∧
    (∀ (skill : String) (agent : UAgent) (env : UTargetEnv),
      uninstall_builtin skill agent env.run = false →
      env.path_exists = true →
      uninstall_target skill agent env =
        (.removed "file",
          if env.is_symlink then .unlinked else .removedTree, false)) ∧
    (∀ (skill : String) (agent : UAgent) (env : UTargetEnv),
      uninstall_builtin skill agent env.run = false →
      env.path_exists = false →
      uninstall_target skill agent env = (.notFound, .noDelete, false)) ∧
    remove_cmd "claude skill install" = "claude skill remove" ∧
    (∀ (skill : String) (d₁ d₂ : List (UAgent × UTargetEnv))
        (p : UAgent × UTargetEnv),
      (d₁ ++ p :: d₂).map
          (fun q => (q.1.name, (uninstall_target skill q.1 q.2).1)) =
        d₁.map (fun q => (q.1.name, (uninstall_target skill q.1 q.2).1)) ++
          (p.1.name, (uninstall_target skill p.1 p.2).1) ::
            d₂.map (fun q => (q.1.name, (uninstall_target skill q.1 q.2).1))) := by
  refine ⟨?_, ?_, ?_, by decide, ?_⟩
  · intro skill agent env h
    obtain ⟨nm, bi⟩ := agent
    cases bi with
    | none => simp [uninstall_builtin] at h
    | some cmd =>
      unfold uninstall_target
      rw [h]
      rfl
  · intro skill agent env h hp
    obtain ⟨nm, bi⟩ := agent
    obtain ⟨run, pe, sym⟩ := env
    simp only at h hp
    subst hp
    unfold uninstall_target
    rw [h]
    cases bi <;> cases sym <;> rfl
  · intro skill agent env h hp
    obtain ⟨nm, bi⟩ := agent
    obtain ⟨run, pe, sym⟩ := env
    simp only at h hp
    subst hp
    unfold uninstall_target
    rw [h]
    cases bi <;> rfl
  · intro skill d₁ d₂ p
    simp [List.map_append]

/-- Witness for C8 (amended): no builtin command and an existing non-symlink
path falls back to recursive file removal. -/
theorem uninstall_target_behavior_witness :
    uninstall_target "demo" ⟨"cursor", none⟩
        ⟨fun _ => .exited 1, true, false⟩ =
      (.removed "file", .removedTree, false) := by
  have h := uninstall_target_behavior.2.1 "demo" ⟨"cursor", none⟩
    ⟨fun _ => .exited 1, true, false⟩ rfl rfl
  simpa using h

lemma pySplit_ne_nil (sep : Char) (s : Str) : pySplit sep s ≠ [] := by
  induction s with
  | nil => simp [pySplit]
  | cons c cs ih =>
    simp only [pySplit]
    rcases hcs : pySplit sep cs with _ | ⟨seg, segs⟩
    · simp
    · dsimp only
      split <;> simp

lemma not_mem_of_mem_pySplit (sep : Char) (s : Str) :
    ∀ t ∈ pySplit sep s, sep ∉ t := by
  induction s with
  | nil =>
    intro t ht
    simp [pySplit] at ht
    simp [ht]
  | cons c cs ih =>
    intro t ht
    simp only [pySplit] at ht
    rcases hcs : pySplit sep cs with _ | ⟨seg, segs⟩
    · exact absurd hcs (pySplit_ne_nil sep cs)
    · rw [hcs] at ht
      dsimp only at ht
      by_cases hc : c = sep
      · rw [if_pos hc] at ht
        rw [List.mem_cons, List.mem_cons] at ht
        rcases ht with h | h | h
        · simp [h]
        · subst h
          exact ih t (by rw [hcs]; exact List.mem_cons_self t segs)
        · exact ih t (by rw [hcs]; exact List.mem_cons_of_mem seg h)
      · rw [if_neg hc] at ht
        rw [List.mem_cons] at ht
        rcases ht with h | h
        · subst h
          intro hmem
          rcases List.mem_cons.mp hmem with h' | h'
          · exact hc h'.symm
          · exact ih seg (by rw [hcs]; exact List.mem_cons_self seg segs) h'
        · exact ih t (by rw [hcs]; exact List.mem_cons_of_mem seg h)

lemma pySplit_of_not_mem (sep : Char) (t : Str) (h : sep ∉ t) :
    pySplit sep t = [t] := by
  induction t with
  | nil => rfl
  | cons c cs ih =>
    have hc : c ≠ sep := fun hcc => h (hcc ▸ List.mem_cons_self c cs)
    have hcs : sep ∉ cs := fun hm => h (List.mem_cons_of_mem c hm)
    simp only [pySplit, ih hcs]
    rw [if_neg hc]

lemma pySplit_sep_append (sep : Char) (a u : Str) (ha : sep ∉ a) :
    pySplit sep (a ++ sep :: u) = a :: pySplit sep u := by
  induction a with
  | nil =>
    simp only [List.nil_append, pySplit]
    rcases hu : pySplit sep u with _ | ⟨seg, segs⟩
    · exact absurd hu (pySplit_ne_nil sep u)
    · simp
  | cons c a' ih =>
    have hc : c ≠ sep := fun hcc => ha (hcc ▸ List.mem_cons_self c a')
    have ha' : sep ∉ a' := fun hm => ha (List.mem_cons_of_mem c hm)
    have step : pySplit sep (c :: (a' ++ sep :: u)) =
        match pySplit sep (a' ++ sep :: u) with
        | [] => [[]]
        | seg :: segs =>
          if c = sep then [] :: seg :: segs else (c :: seg) :: segs := rfl
    rw [List.cons_append, step, ih ha']
    dsimp only
    rw [if_neg hc]

lemma pySplit_pyJoin (sep : Char) (segs : List Str) (hne : segs ≠ [])
    (hsep : ∀ t ∈ segs, sep ∉ t) :
    pySplit sep (pyJoin sep segs) = segs := by
  induction segs with
  | nil => exact absurd rfl hne
  | cons a rest ih =>
    cases rest with
    | nil => exact pySplit_of_not_mem sep a (hsep a (List.mem_cons_self a []))
    | cons b rest' =>
      have ha : sep ∉ a := hsep a (List.mem_cons_self _ _)
      have hrest : ∀ t ∈ b :: rest', sep ∉ t :=
        fun t ht => hsep t (List.mem_cons_of_mem a ht)
      show pySplit sep (a ++ sep :: pyJoin sep (b :: rest')) = a :: b :: rest'
      rw [pySplit_sep_append sep a _ ha, ih (by simp) hrest]

lemma pyJoin_ne_nil (sep : Char) (segs : List Str) (hne : segs ≠ [])
    (hmem : ∀ t ∈ segs, t ≠ []) : pyJoin sep segs ≠ [] := by
  cases segs with
  | nil => exact absurd rfl hne
  | cons a rest =>
    cases rest with
    | nil => exact hmem a (List.mem_cons_self _ _)
    | cons b rest' =>
      show a ++ sep :: pyJoin sep (b :: rest') ≠ []
      simp

lemma pyJoin_getLast? (sep : Char) (segs : List Str) (hne : segs ≠ [])
    (hmem : ∀ t ∈ segs, t ≠ []) :
    (pyJoin sep segs).getLast? = (segs.getLast hne).getLast? := by
  induction segs with
  | nil => exact absurd rfl hne
  | cons a rest ih =>
    cases rest with
    | nil => rfl
    | cons b rest' =>
      have hmem' : ∀ t ∈ b :: rest', t ≠ [] :=
        fun t ht => hmem t (List.mem_cons_of_mem a ht)
      have hj := ih (by simp) hmem'
      show (a ++ sep :: pyJoin sep (b :: rest')).getLast? = _
      rw [List.getLast?_append_of_ne_nil _ (by simp)]
      have hjoin_ne : pyJoin sep (b :: rest') ≠ [] :=
        pyJoin_ne_nil sep _ (by simp) hmem'
      rcases hjj : pyJoin sep (b :: rest') with _ | ⟨x, xs⟩
      · exact absurd hjj hjoin_ne
      · rw [hjj] at hj
        rw [List.getLast?_cons_cons, hj]
        rfl

lemma pyRstrip_eq_self (c : Char) (s : Str) (h : s.getLast? ≠ some c) :
    pyRstrip c s = s := by
  unfold pyRstrip
  rcases hs : s.reverse with _ | ⟨x, xs⟩
  · have : s = [] := by simpa using congrArg List.reverse hs
    simp [this]
  · have hx : s.getLast? = some x := by
      rw [← List.head?_reverse, hs]
      rfl
    have hxc : x ≠ c := fun hxx => h (hxx ▸ hx)
    rw [List.dropWhile_cons, if_neg (by simp [hxc])]
    rw [← hs, List.reverse_reverse]

lemma getLastD_eq_getLast {α : Type} (l : List α) (d : α) (h : l ≠ []) :
    l.getLastD d = l.getLast h := by
  rw [List.getLastD_eq_getLast?, List.getLast?_eq_getLast l h]
  rfl

/-- C5: a shorthand splitting as `owner :: repo :: rest` with non-empty
`rest` parses to a `RepositorySource` whose subpath joins `rest`, whose
derived name is the last segment, and whose ref is the configured default;
a shorthand with fewer than two slash-separated segments is rejected as an
invalid source. -/
theorem parse_shorthand_spec :
    (∀ (s dref owner repo : Str) (rest : List Str)
      (hsplit : pySplit '/' s = owner :: repo :: rest) (hne : rest ≠ []),
      parse_shorthand s dref =
        .ok { owner := owner, repo := repo, ref := dref,
              path := pyJoin '/' rest, skill_name := rest.getLast hne }) ∧
    (∀ s dref : Str, (pySplit '/' s).length < 2 →
      parse_shorthand s dref =
        .error "Invalid shorthand. Use: owner/repo[/path/to/skill]".data) := by
  constructor
  · intro s dref owner repo rest hsplit hne
    unfold parse_shorthand
    rw [hsplit]
    dsimp only
    rw [getLastD_eq_getLast rest repo hne]
  · intro s dref h
    unfold parse_shorthand
    rcases hsplit : pySplit '/' s with _ | ⟨a, rest0⟩
    · rfl
    rcases rest0 with _ | ⟨b, rest⟩
    · rfl
    · rw [hsplit] at h
      simp only [List.length_cons] at h
      exact absurd h (by omega)

/-- Witness for C5: `acme/toolkit/packs/search` parses with subpath
`packs/search` and derived name `search`. -/
theorem parse_shorthand_spec_witness :
    parse_shorthand "acme/toolkit/packs/search".data mainRef =
      .ok { owner := "acme".data, repo := "toolkit".data, ref := mainRef,
            path := "packs/search".data, skill_name := "search".data } := by
  have h := parse_shorthand_spec.1 "acme/toolkit/packs/search".data mainRef
    "acme".data "toolkit".data ["packs".data, "search".data]
    (by decide) (by decide)
  rw [h]
  decide

/-- C6 counterexample: the shorthand `acme/toolkit/` (trailing slash) is
accepted, and its derived skill name is the empty string. -/
theorem derived_name_empty_counterexample :
    parse_shorthand "acme/toolkit/".data mainRef =
      .ok { owner := "acme".data, repo := "toolkit".data, ref := mainRef,
            path := [], skill_name := [] } := by
  decide

lemma subpath_skill_name (segs : List Str)
    (hmem : ∀ t ∈ segs, t ≠ [] ∧ '/' ∉ t) (hne : segs ≠ []) :
    pyJoin '/' segs ≠ [] ∧
    (pySplit '/' (pyRstrip '/' (pyJoin '/' segs))).getLastD [] ≠ [] ∧
    '/' ∉ (pySplit '/' (pyRstrip '/' (pyJoin '/' segs))).getLastD [] := by
  have hne' : ∀ t ∈ segs, t ≠ [] := fun t ht => (hmem t ht).1
  have hsep : ∀ t ∈ segs, '/' ∉ t := fun t ht => (hmem t ht).2
  have hjoin := pyJoin_ne_nil '/' segs hne hne'
  have hlast_mem := List.getLast_mem hne
  have hlast_ne : segs.getLast hne ≠ [] := hne' _ hlast_mem
  have hlast_nosep : '/' ∉ segs.getLast hne := hsep _ hlast_mem
  have hglne : (pyJoin '/' segs).getLast? ≠ some '/' := by
    rw [pyJoin_getLast? '/' segs hne hne']
    rcases hl : segs.getLast hne with _ | ⟨x, xs⟩
    · exact absurd hl hlast_ne
    · rw [List.getLast?_eq_getLast _ (by simp)]
      intro hcontra
      have hx : (x :: xs).getLast (by simp) = '/' := Option.some.inj hcontra
      have : '/' ∈ x :: xs := hx ▸ List.getLast_mem (by simp)
      exact (hl ▸ hlast_nosep) this
  rw [pyRstrip_eq_self _ _ hglne, pySplit_pyJoin '/' segs hne hsep,
    getLastD_eq_getLast segs [] hne]
  exact ⟨hjoin, hlast_ne, hlast_nosep⟩

/-- C6 as amended: the derived name of an accepted source never contains a
path separator; for GitHub URLs it is also never empty; for shorthands it
is the final slash-separated segment of the input (so it is empty exactly
when that final segment is empty, as with a trailing slash — not the last
non-empty segment). -/
theorem derived_name_invariant :
    (∀ (s dref : Str) (src : Source), parse_shorthand s dref = .ok src →
      '/' ∉ src.skill_name ∧
      src.skill_name = (pySplit '/' s).getLastD []) ∧
    (∀ (netloc urlpath dref : Str) (src : Source),
      parse_github_url netloc urlpath dref = .ok src →
      src.skill_name ≠ [] ∧ '/' ∉ src.skill_name) := by
  constructor
  · intro s dref src h
    unfold parse_shorthand at h
    rcases hsplit : pySplit '/' s with _ | ⟨owner, rest0⟩
    · exact absurd hsplit (pySplit_ne_nil _ _)
    rcases rest0 with _ | ⟨repo, rest⟩
    · rw [hsplit] at h
      exact Except.noConfusion h
    · rw [hsplit] at h
      dsimp only at h
      have hr := Except.ok.inj h
      subst hr
      constructor
      · have hmem : rest.getLastD repo ∈ owner :: repo :: rest := by
          cases rest with
          | nil => exact List.mem_cons_of_mem _ (List.mem_cons_self _ _)
          | cons b r' =>
            rw [getLastD_eq_getLast (b :: r') repo (by simp)]
            exact List.mem_cons_of_mem _
              (List.mem_cons_of_mem _ (List.getLast_mem (by simp)))
        exact not_mem_of_mem_pySplit '/' s _ (by rw [hsplit]; exact hmem)
      · rw [List.getLastD_cons, List.getLastD_cons]
  · intro netloc urlpath dref src h
    unfold parse_github_url at h
    by_cases hnl : netloc ≠ "github.com".data ∧ netloc ≠ "www.github.com".data
    · rw [if_pos hnl] at h
      exact Except.noConfusion h
    · rw [if_neg hnl] at h
      have hparts : ∀ t ∈ (pySplit '/' urlpath).filter (· ≠ []),
          t ≠ [] ∧ '/' ∉ t := by
        intro t ht
        rw [List.mem_filter] at ht
        refine ⟨?_, not_mem_of_mem_pySplit '/' urlpath t ht.1⟩
        simpa using ht.2
      rcases hsplit : (pySplit '/' urlpath).filter (· ≠ []) with _ | ⟨owner, rest0⟩
      · rw [hsplit] at h
        exact Except.noConfusion h
      rcases rest0 with _ | ⟨repo, rest⟩
      · rw [hsplit] at h
        exact Except.noConfusion h
      rw [hsplit] at h hparts
      cases rest with
      | nil =>
        dsimp only at h
        have hr := Except.ok.inj h
        subst hr
        have hrepo := hparts repo (List.mem_cons_of_mem _ (List.mem_cons_self _ _))
        exact ⟨hrepo.1, hrepo.2⟩
      | cons seg more =>
        dsimp only at h
        by_cases htb : seg = "tree".data ∨ seg = "blob".data
        · rw [if_pos htb] at h
          cases more with
          | nil => exact Except.noConfusion h
          | cons r remainder =>
            dsimp only at h
            have hr := Except.ok.inj h
            subst hr
            cases remainder with
            | nil =>
              have hrepo := hparts repo
                (List.mem_cons_of_mem _ (List.mem_cons_self _ _))
              exact ⟨hrepo.1, hrepo.2⟩
            | cons t ts =>
              have hmem' : ∀ u ∈ t :: ts, u ≠ [] ∧ '/' ∉ u :=
                fun u hu => hparts u (by simp [List.mem_cons] at hu ⊢; tauto)
              obtain ⟨hjne, hn1, hn2⟩ :=
                subpath_skill_name (t :: ts) hmem' (by simp)
              show (if pyJoin '/' (t :: ts) ≠ [] then _ else repo) ≠ [] ∧
                '/' ∉ (if pyJoin '/' (t :: ts) ≠ [] then _ else repo)
              rw [if_pos hjne]
              exact ⟨hn1, hn2⟩
        · rw [if_neg htb] at h
          dsimp only at h
          have hr := Except.ok.inj h
          subst hr
          have hmem' : ∀ u ∈ seg :: more, u ≠ [] ∧ '/' ∉ u :=
            fun u hu => hparts u (by simp [List.mem_cons] at hu ⊢; tauto)
          obtain ⟨hjne, hn1, hn2⟩ :=
            subpath_skill_name (seg :: more) hmem' (by simp)
          show (if pyJoin '/' (seg :: more) ≠ [] then _ else repo) ≠ [] ∧
            '/' ∉ (if pyJoin '/' (seg :: more) ≠ [] then _ else repo)
          rw [if_pos hjne]
          exact ⟨hn1, hn2⟩

/-- Witness for C6 (amended): a GitHub tree URL yields the non-empty,
separator-free derived name `search`. -/
theorem derived_name_invariant_witness :
    "search".data ≠ ([] : Str) ∧ '/' ∉ "search".data :=
  derived_name_invariant.2 "github.com".data
    "/acme/toolkit/tree/dev/packs/search".data mainRef
    { owner := "acme".data, repo := "toolkit".data, ref := "dev".data,
      path := "packs/search".data, skill_name := "search".data }
    (by decide)

end SkillManager
